import Mathlib

/-!
# Verification of the streaming analysis pipeline of `gemini-code-review-tool`

This file gives a shallow embedding, in Lean, of the core of the
repository: the multi-stage streaming analysis pipeline.

* The **Task Sequencer** and **Context Builder** live in the Express
  server (`performStreamingTask` / `runAnalysis`): they fetch file
  contents, assemble a bounded corpus, run the five analysis tasks and
  emit a newline-framed event stream.
* The **Client Stream Consumer** (`analyzeRepositoryStream` in
  `services/geminiService.ts`) decodes that stream: it buffers bytes,
  splits on newline, retains the trailing partial line, and parses each
  complete line into a typed event.
* The **Repository Tree Walker** (`fetchAllFilePaths` in
  `services/githubService.ts`) discovers file paths with per-directory
  failure tolerance and a 100-file safety cap.
* The **client reducer** (`appReducer` in `App.tsx`) folds the typed
  events into the task-list state.

External effects (the Gemini engine, the GitHub HTTP API, `JSON.parse`)
are modelled as function parameters; everything the repository itself
computes is translated directly from the source.  JavaScript strings are
modelled as Lean `String` (or `List Char` where the framing loop slices
byte buffers), and JavaScript array mutation as functional state passing.
-/

namespace GeminiReview

/-- The `RepoAnalysisStreamEvent` discriminated union (types file), which
is also exactly the shape of every object the server passes to
`sendEvent`.  The optional `error` of `task_end` is an `Option String`. -/
inductive StreamEvent where
  | system (message : String)
  | processing_file (path content : String)
  | task_start (id title : String)
  | task_chunk (id chunk : String)
  | task_end (id : String) (error : Option String)
  | error (message : String)
deriving DecidableEq, Repr

/-! ## Client Stream Consumer (`analyzeRepositoryStream`, geminiService.ts)

The consumer reads byte chunks, accumulates them in `buffer`, splits on
`'\n'`, processes every complete line and keeps the last (possibly
incomplete) segment as the new buffer.  We model the text as `List Char`
(the `TextDecoder` in the source reassembles split UTF-8 sequences, so
character streams are the faithful abstraction) and `JSON.parse` of an
event payload as a parameter `parse : List Char → Option StreamEvent`
(`none` models a thrown `SyntaxError`). -/

/-- JavaScript `buffer.split('\n')` followed by `buffer = lines.pop() || ''`:
returns the complete lines (everything before each newline) and the
trailing remainder after the last newline. -/
def splitNl : List Char → List (List Char) × List Char
  | [] => ([], [])
  | c :: cs =>
    let p := splitNl cs
    if c = '\n' then ([] :: p.1, p.2)
    else
      match p.1 with
      | [] => ([], c :: p.2)
      | s :: ss => ((c :: s) :: ss, p.2)

/-- JavaScript `String.prototype.trim` on the character list. -/
def trimChars (l : List Char) : List Char :=
  ((l.dropWhile Char.isWhitespace).reverse.dropWhile Char.isWhitespace).reverse

/-- The framing marker `"EVENT: "` every structured event line begins with. -/
def eventMarker : List Char := ("EVENT: ").data

/-- The visible diagnostic event produced when a marker line's payload
fails to `JSON.parse` (the `catch` branch of the consumer). -/
def clientParseError (t : List Char) : StreamEvent :=
  .error (String.mk (("[CLIENT PARSE ERROR] Failed to parse event: ").data ++ t))

/-- The visible diagnostic event produced for a non-empty line that does
not carry the event marker. -/
def serverLog (t : List Char) : StreamEvent :=
  .error (String.mk (("[SERVER LOG] ").data ++ t))

/-- Processing of one complete line by the consumer: trim; a marker line
parses its payload (`substring(7)`), falling back to a visible
`[CLIENT PARSE ERROR]` event; any other non-empty line becomes a visible
`[SERVER LOG]` event; blank lines produce nothing. -/
def processLine (parse : List Char → Option StreamEvent) (line : List Char) :
    Option StreamEvent :=
  let t := trimChars line
  if eventMarker.isPrefixOf t then
    match parse (t.drop 7) with
    | some e => some e
    | none => some (clientParseError t)
  else if t = [] then none
  else some (serverLog t)

/-- Processing of a list of complete lines, in order. -/
def processLines (parse : List Char → Option StreamEvent)
    (lines : List (List Char)) : List StreamEvent :=
  lines.filterMap (processLine parse)

/-- State of the consumer loop: the retained partial line and the events
yielded so far. -/
structure ConsumerState where
  buffer : List Char
  events : List StreamEvent
deriving DecidableEq, Repr

/-- One iteration of the consumer's read loop on an incoming chunk:
append to the buffer, split on newline, process the complete lines,
retain the trailing segment. -/
def processChunk (parse : List Char → Option StreamEvent)
    (st : ConsumerState) (chunk : List Char) : ConsumerState :=
  let p := splitNl (st.buffer ++ chunk)
  { buffer := p.2, events := st.events ++ processLines parse p.1 }

/-- The consumer's initial state: empty buffer, no events. -/
def initConsumer : ConsumerState := ⟨[], []⟩

/-- The whole consumer run over a sequence of read chunks. -/
def consumeChunks (parse : List Char → Option StreamEvent)
    (chunks : List (List Char)) : ConsumerState :=
  chunks.foldl (processChunk parse) initConsumer

/-! ### Framing lemmas -/

/-- Unfolding equation of `splitNl` at a newline character. -/
theorem splitNl_cons_newline (cs : List Char) :
    splitNl ('\n' :: cs) = ([] :: (splitNl cs).1, (splitNl cs).2) := by
  simp [splitNl]

/-- Unfolding equation of `splitNl` at a non-newline character. -/
theorem splitNl_cons_other (c : Char) (cs : List Char) (hc : c ≠ '\n') :
    splitNl (c :: cs) =
      match (splitNl cs).1 with
      | [] => ([], c :: (splitNl cs).2)
      | s :: ss => ((c :: s) :: ss, (splitNl cs).2) := by
  simp [splitNl, hc]

/-- Splitting an appended text: the complete lines of `a` stay complete,
the remainder of `a` glues onto the first line (or remainder) of `b`. -/
theorem splitNl_append (a b : List Char) :
    splitNl (a ++ b) =
      match (splitNl b).1 with
      | [] => ((splitNl a).1, (splitNl a).2 ++ (splitNl b).2)
      | s :: ss => ((splitNl a).1 ++ ((splitNl a).2 ++ s) :: ss, (splitNl b).2) := by
  induction a with
  | nil =>
    cases hb : (splitNl b).1 with
    | nil => simp [splitNl, hb, Prod.ext_iff]
    | cons s ss => simp [splitNl, hb, Prod.ext_iff]
  | cons c cs ih =>
    by_cases hc : c = '\n'
    · subst hc
      rw [List.cons_append, splitNl_cons_newline, splitNl_cons_newline, ih]
      cases hb : (splitNl b).1 with
      | nil => simp
      | cons s ss => simp
    · rw [List.cons_append, splitNl_cons_other c (cs ++ b) hc,
        splitNl_cons_other c cs hc, ih]
      cases hb : (splitNl b).1 with
      | nil => cases ha : (splitNl cs).1 <;> simp [ha]
      | cons s ss => cases ha : (splitNl cs).1 <;> simp [ha]

/-- The retained remainder never contains a newline. -/
theorem splitNl_no_newline (l : List Char) : '\n' ∉ (splitNl l).2 := by
  induction l with
  | nil => simp [splitNl]
  | cons c cs ih =>
    by_cases hc : c = '\n'
    · subst hc; simpa [splitNl] using ih
    · cases ha : (splitNl cs).1 with
      | nil =>
        simp only [splitNl, if_neg hc, ha]
        intro hmem
        rcases List.mem_cons.mp hmem with h | h
        · exact hc h.symm
        · exact ih h
      | cons s ss => simpa [splitNl, if_neg hc, ha] using ih

/-- A newline-free text splits into no complete line and itself. -/
theorem splitNl_of_no_newline (l : List Char) (h : '\n' ∉ l) :
    splitNl l = ([], l) := by
  induction l with
  | nil => simp [splitNl]
  | cons c cs ih =>
    have hc : c ≠ '\n' := fun hceq => h (hceq ▸ List.mem_cons_self c cs)
    have hcs : '\n' ∉ cs := fun hmem => h (List.mem_cons_of_mem c hmem)
    simp [splitNl, if_neg hc, ih hcs]

/-- Composition of the consumer loop: feeding two chunks one after the
other is the same as feeding their concatenation. -/
theorem processChunk_append (parse : List Char → Option StreamEvent)
    (st : ConsumerState) (a b : List Char) :
    processChunk parse (processChunk parse st a) b =
      processChunk parse st (a ++ b) := by
  have h1 := splitNl_append (st.buffer ++ a) b
  have h2 := splitNl_append ((splitNl (st.buffer ++ a)).2) b
  rw [splitNl_of_no_newline _ (splitNl_no_newline (st.buffer ++ a))] at h2
  cases hb1 : (splitNl b).1 with
  | nil =>
    simp only [hb1] at h1 h2
    simp only [processChunk, processLines, ← List.append_assoc, h1, h2]
    simp [List.filterMap_append, List.append_assoc]
  | cons s ss =>
    simp only [hb1] at h1 h2
    simp only [processChunk, processLines, ← List.append_assoc, h1, h2]
    simp [List.filterMap_append, List.append_assoc]

/-- Feeding an empty chunk from the initial state is a no-op. -/
theorem processChunk_init_nil (parse : List Char → Option StreamEvent) :
    processChunk parse initConsumer [] = initConsumer := by
  simp [processChunk, initConsumer, splitNl, processLines]

/-- Folding the consumer over a chunk list from an absorbed prefix `x`
equals one shot over `x` followed by the joined chunks. -/
theorem consumeChunks_absorb (parse : List Char → Option StreamEvent)
    (chunks : List (List Char)) :
    ∀ x : List Char,
      chunks.foldl (processChunk parse) (processChunk parse initConsumer x) =
        processChunk parse initConsumer (x ++ chunks.flatten) := by
  induction chunks with
  | nil => intro x; simp
  | cons c cs ih =>
    intro x
    simp only [List.foldl_cons, List.flatten_cons]
    rw [processChunk_append, ih, List.append_assoc]

/-- The consumer run over any chunk list equals the run over the single
chunk carrying the whole text. -/
theorem consumeChunks_eq_join (parse : List Char → Option StreamEvent)
    (chunks : List (List Char)) :
    consumeChunks parse chunks = processChunk parse initConsumer chunks.flatten := by
  have h := consumeChunks_absorb parse chunks []
  rw [processChunk_init_nil] at h
  simpa [consumeChunks] using h

/-! ### Claims about the consumer -/

/-- C3: framing chunk-invariance of the Client Stream Consumer.  For
every partition of the stream text into read chunks — including
partitions that split an event line in the middle — the buffer-split-
retain loop ends in exactly the same state (same ordered event sequence,
same retained buffer) as any other delivery of the same text, in
particular delivery as whole lines. -/
theorem framing_chunk_invariance (parse : List Char → Option StreamEvent)
    (chunks1 chunks2 : List (List Char)) (h : chunks1.flatten = chunks2.flatten) :
    consumeChunks parse chunks1 = consumeChunks parse chunks2 := by
  rw [consumeChunks_eq_join, consumeChunks_eq_join, h]

/-- Witness for C3, after Scenario D of the spec: the bytes of one
framed event line delivered across two reads yield exactly one event,
the same as whole-line delivery. -/
theorem framing_chunk_invariance_witness :
    consumeChunks (fun _ => some (.system "hi"))
        [("EVENT: pay").data, ("load\n").data] =
      consumeChunks (fun _ => some (.system "hi")) [("EVENT: payload\n").data]
    ∧ (consumeChunks (fun _ => some (.system "hi"))
        [("EVENT: pay").data, ("load\n").data]).events = [.system "hi"] :=
  ⟨framing_chunk_invariance _ _ _ (by decide), by decide⟩

/-- C8: consumer parse-error visibility.  A complete line that carries
the event marker but whose payload fails to parse yields a visible
`[CLIENT PARSE ERROR]` event, a non-empty line without the marker yields
a visible `[SERVER LOG]` event, and in both cases every surrounding line
is still processed — malformed input is neither swallowed nor does it
terminate the consumer. -/
theorem consumer_parse_error_visibility (parse : List Char → Option StreamEvent)
    (pre suf : List (List Char)) (lineA lineB : List Char)
    (hA1 : eventMarker.isPrefixOf (trimChars lineA) = true)
    (hA2 : parse ((trimChars lineA).drop 7) = none)
    (hB1 : eventMarker.isPrefixOf (trimChars lineB) = false)
    (hB2 : trimChars lineB ≠ []) :
    processLines parse (pre ++ lineA :: suf) =
        processLines parse pre ++
          clientParseError (trimChars lineA) :: processLines parse suf
    ∧ processLines parse (pre ++ lineB :: suf) =
        processLines parse pre ++
          serverLog (trimChars lineB) :: processLines parse suf := by
  constructor
  · simp [processLines, List.filterMap_append, List.filterMap_cons,
      processLine, hA1, hA2]
  · simp [processLines, List.filterMap_append, List.filterMap_cons,
      processLine, hB1, hB2]

/-- Witness for C8: a malformed marker line and a bare log line, each
between two well-formed blank lines, produce exactly their diagnostic
events. -/
theorem consumer_parse_error_visibility_witness :
    processLines (fun _ => none) [[], ("EVENT: bad").data, []] =
        [clientParseError (trimChars (("EVENT: bad").data))]
    ∧ processLines (fun _ => none) [[], ("oops").data, []] =
        [serverLog (trimChars (("oops").data))] :=
  ⟨by
    have h := consumer_parse_error_visibility (fun _ => none) [[]] [[]]
      (("EVENT: bad").data) (("oops").data) (by decide) rfl (by decide) (by decide)
    calc processLines (fun _ => none) [[], ("EVENT: bad").data, []]
        = processLines (fun _ => none) ([[]] ++ ("EVENT: bad").data :: [[]]) := rfl
      _ = _ := by rw [h.1]; decide,
   by
    have h := consumer_parse_error_visibility (fun _ => none) [[]] [[]]
      (("EVENT: bad").data) (("oops").data) (by decide) rfl (by decide) (by decide)
    calc processLines (fun _ => none) [[], ("oops").data, []]
        = processLines (fun _ => none) ([[]] ++ ("oops").data :: [[]]) := rfl
      _ = _ := by rw [h.2]; decide⟩

/-- C9: blank lines are silently skipped.  A complete line produces no
event exactly when it is empty or whitespace-only after trimming; every
non-blank trimmed line produces some event. -/
theorem blank_lines_skipped (parse : List Char → Option StreamEvent)
    (line : List Char) :
    processLine parse line = none ↔ trimChars line = [] := by
  unfold processLine
  by_cases h1 : eventMarker.isPrefixOf (trimChars line) = true
  · have hne : trimChars line ≠ [] := by
      intro h
      rw [h] at h1
      exact absurd h1 (by decide)
    cases h2 : parse ((trimChars line).drop 7) <;> simp [h1, h2, hne]
  · have h1f : eventMarker.isPrefixOf (trimChars line) = false :=
      Bool.not_eq_true _ ▸ eq_false_of_ne_true h1
    by_cases h3 : trimChars line = []
    · rw [h3]
      simp [show eventMarker.isPrefixOf ([] : List Char) = false from by decide]
    · simp [h1f, h3]

/-! ## Task Sequencer and Context Builder (server, `/api/analyze`)

The server file's `runAnalysis` parses the request, fetches each file's
content from GitHub, assembles the bounded corpus, and runs the five
analysis tasks through `performStreamingTask`.  The two external calls
are parameters of the embedding: `fetchFile` models the GitHub
`fetchFileContent` round trip (`Except.error` is a thrown fetch error
with its message), and `engine` models one
`ai.models.generateContentStream` call, giving the text fragments
received and, optionally, the message of an error raised during the
call or mid-stream. -/

/-- Outcome of one streaming engine call: the (possibly empty) list of
text fragments received before the call either completed or raised. -/
structure EngineResult where
  chunks : List String
  error : Option String
deriving DecidableEq, Repr

/-- The server's `performStreamingTask`: emit `task_start`, forward each
non-empty fragment as `task_chunk` (the source guards `if (chunk.text)`),
then emit `task_end` — without error on completion, with the error's
message on failure.  On failure the source re-throws after emitting
`task_end`; the second component carries that re-thrown error. -/
def performStreamingTask (engine : String → EngineResult)
    (taskId taskTitle prompt : String) : List StreamEvent × Option String :=
  let r := engine prompt
  let chunkEvents := (r.chunks.filter (· != "")).map (StreamEvent.task_chunk taskId)
  match r.error with
  | none =>
    (StreamEvent.task_start taskId taskTitle ::
      (chunkEvents ++ [StreamEvent.task_end taskId none]), none)
  | some msg =>
    (StreamEvent.task_start taskId taskTitle ::
      (chunkEvents ++ [StreamEvent.task_end taskId (some msg)]), some msg)

/-- One entry of the server's fixed `tasks` array. -/
structure TaskSpec where
  id : String
  title : String
  prompt : String
deriving DecidableEq, Repr

/-- The server's ordered list of the five analysis tasks, with their
prompts built over the assembled corpus. -/
def analysisTasks (fileContentsString : String) : List TaskSpec :=
  [⟨"summary", "1. Project Summary",
    "Provide a concise, one-paragraph summary of this project's purpose based on its file structure and code. Codebase:\n" ++ fileContentsString⟩,
   ⟨"tech_stack", "2. Tech Stack Analysis",
    "Analyze the tech stack. Identify the primary languages, frameworks, and key libraries. Present as a markdown list. Codebase:\n" ++ fileContentsString⟩,
   ⟨"architecture", "3. Architectural Review",
    "Critique the overall architecture. Discuss strengths, weaknesses, and potential improvements in markdown format. Codebase:\n" ++ fileContentsString⟩,
   ⟨"error_trends", "4. Common Error Trends",
    "Identify up to 3 recurring problems or anti-patterns. For each, describe the trend and list affected files. Codebase:\n" ++ fileContentsString⟩,
   ⟨"suggestions", "5. Actionable Suggestions",
    "List up to 5 specific, actionable improvements for this codebase. Codebase:\n" ++ fileContentsString⟩]

/-- The server's `for (const task of tasks) await performStreamingTask(...)`
loop.  A task failure re-throws, so the loop stops at the first failing
task; the second component is the escaped error, if any. -/
def runTasks (engine : String → EngineResult) :
    List TaskSpec → List StreamEvent × Option String
  | [] => ([], none)
  | t :: rest =>
    match performStreamingTask engine t.id t.title t.prompt with
    | (evs, some msg) => (evs, some msg)
    | (evs, none) =>
      let r := runTasks engine rest
      (evs ++ r.1, r.2)

/-- The events of one task's run (first component of
`performStreamingTask`). -/
def taskBlock (engine : String → EngineResult) (t : TaskSpec) : List StreamEvent :=
  (performStreamingTask engine t.id t.title t.prompt).1

/-- Accumulator of the server's file-fetch loop: corpus string, running
character total, included-file count, and the events emitted so far. -/
structure ContextAcc where
  fileContentsString : String
  totalChars : Nat
  filesIncludedCount : Nat
  events : List StreamEvent
deriving DecidableEq, Repr

/-- Loop state at entry: empty corpus, zero totals, no events. -/
def initContext : ContextAcc := ⟨"", 0, 0, []⟩

/-- The delimited corpus record appended per included file. -/
def fileRecord (path content : String) : String :=
  "// FILE: " ++ path ++ "\n" ++ content ++ "\n\n---\n\n"

/-- The placeholder content sent for a file whose fetch failed. -/
def fetchErrorRecord (msg : String) : String :=
  "// Error fetching content: " ++ msg

/-- The budget-reached notification, carrying the included-file count. -/
def contextLimitMsg (limit count : Nat) : String :=
  "[SYSTEM] Context limit of " ++ toString limit ++
    " characters reached. Analyzing the first " ++ toString count ++ " files."

/-- The server's character budget for the corpus. -/
def MAX_CONTEXT_CHAR_LIMIT : Nat := 750000

/-- The server's `for (const path of paths)` fetch loop.  A successful
fetch is included unless at least one file is already included and the
budget would be exceeded, in which case the notification is emitted and
the loop breaks; a failed fetch emits a `processing_file` event with an
error placeholder and is not counted. -/
def buildContext (limit : Nat) (fetchFile : String → Except String String) :
    List String → ContextAcc → ContextAcc
  | [], acc => acc
  | path :: rest, acc =>
    match fetchFile path with
    | .ok content =>
      if 0 < acc.filesIncludedCount ∧ limit < acc.totalChars + content.length then
        { acc with
            events := acc.events ++
              [.system (contextLimitMsg limit acc.filesIncludedCount)] }
      else
        buildContext limit fetchFile rest
          { fileContentsString := acc.fileContentsString ++ fileRecord path content
            totalChars := acc.totalChars + content.length
            filesIncludedCount := acc.filesIncludedCount + 1
            events := acc.events ++ [.processing_file path content] }
    | .error msg =>
      buildContext limit fetchFile rest
        { acc with
            events := acc.events ++ [.processing_file path (fetchErrorRecord msg)] }

/-- The terminal event of the server's outer `catch` block. -/
def fatalErrorEvent (msg : String) : StreamEvent :=
  .error ("A fatal error occurred: " ++ msg)

/-- The system message emitted when no file content could be fetched. -/
def corpusEmptyMsg : String :=
  "[SYSTEM] Could not fetch content for any files. Aborting analysis."

/-- The server's `runAnalysis`, from the point where the request body has
been parsed and the repository URL validated (both upstream of the
pipeline): fetch loop, corpus-empty check, task loop, and the fatal
`error` event emitted by the outer `catch` when a task failure escapes.
The returned list is the full ordered event stream written to the
response; the `finally` block then ends the stream. -/
def runAnalysis (fetchFile : String → Except String String)
    (engine : String → EngineResult) (paths : List String) : List StreamEvent :=
  let headerEvents : List StreamEvent :=
    [.system ("Received " ++ toString paths.length ++
        " file paths. Starting processing."),
     .system "Fetching repository files from GitHub..."]
  let ctx := buildContext MAX_CONTEXT_CHAR_LIMIT fetchFile paths initContext
  if ctx.totalChars = 0 ∧ 0 < paths.length then
    headerEvents ++ ctx.events ++ [.system corpusEmptyMsg]
  else
    let r := runTasks engine (analysisTasks ctx.fileContentsString)
    headerEvents ++ ctx.events ++
      [.system ("Context built with " ++ toString ctx.filesIncludedCount ++
          " files. Starting analysis tasks.")] ++
      r.1 ++
      (match r.2 with
       | some msg => [fatalErrorEvent msg]
       | none => [])

/-! ### Claims about the Task Sequencer -/

/-- Unfolding of the task loop at a failing head task: the loop stops. -/
theorem runTasks_cons_fail (engine : String → EngineResult) (t : TaskSpec)
    (rest : List TaskSpec) (msg : String)
    (h : (engine t.prompt).error = some msg) :
    runTasks engine (t :: rest) = (taskBlock engine t, some msg) := by
  simp [runTasks, performStreamingTask, taskBlock, h]

/-- Unfolding of the task loop at a successful head task: the loop
continues. -/
theorem runTasks_cons_ok (engine : String → EngineResult) (t : TaskSpec)
    (rest : List TaskSpec) (h : (engine t.prompt).error = none) :
    runTasks engine (t :: rest) =
      (taskBlock engine t ++ (runTasks engine rest).1, (runTasks engine rest).2) := by
  simp [runTasks, performStreamingTask, taskBlock, h]

/-- A successful task's block contains its clean terminal event. -/
theorem task_end_mem_taskBlock_ok (engine : String → EngineResult)
    (u : TaskSpec) (h : (engine u.prompt).error = none) :
    StreamEvent.task_end u.id none ∈ taskBlock engine u := by
  simp [taskBlock, performStreamingTask, h]

/-- A failing task's block contains its error terminal event. -/
theorem task_end_mem_taskBlock_fail (engine : String → EngineResult)
    (u : TaskSpec) (msg : String) (h : (engine u.prompt).error = some msg) :
    StreamEvent.task_end u.id (some msg) ∈ taskBlock engine u := by
  simp [taskBlock, performStreamingTask, h]

/-- The task loop, run over a list whose first failing task is `t`,
executes exactly the tasks up to and including `t` and re-throws `t`'s
error; no later task runs. -/
theorem runTasks_halt (engine : String → EngineResult) (pre : List TaskSpec)
    (t : TaskSpec) (suf : List TaskSpec) (msg : String)
    (hfail : (engine t.prompt).error = some msg) :
    (∀ u ∈ pre, (engine u.prompt).error = none) →
    runTasks engine (pre ++ t :: suf) =
      ((pre.map (taskBlock engine)).flatten ++ taskBlock engine t, some msg) := by
  induction pre with
  | nil =>
    intro _
    simpa using runTasks_cons_fail engine t suf msg hfail
  | cons u pre ih =>
    intro hpre
    have hu := hpre u (List.mem_cons_self u pre)
    have hrest := ih fun v hv => hpre v (List.mem_cons_of_mem u hv)
    rw [List.cons_append, runTasks_cons_ok engine u _ hu, hrest]
    simp [List.append_assoc]

/-- C1 (amended): partial failure is NOT isolated in the Task Sequencer.
When task `t` of the analysis sequence fails, the sequencer emits
`task_end(t)` carrying the error message and then stops: the failure is
re-thrown, no later task is started, the outer catch emits a fatal
`error` event, and the stream ends.  Tasks before `t` still reach their
clean terminal `task_end`. -/
theorem task_failure_halts_sequence
    (fetchFile : String → Except String String) (engine : String → EngineResult)
    (paths : List String) (pre : List TaskSpec) (t : TaskSpec) (suf : List TaskSpec)
    (msg : String)
    (hsplit :
      analysisTasks
          (buildContext MAX_CONTEXT_CHAR_LIMIT fetchFile paths
            initContext).fileContentsString =
        pre ++ t :: suf)
    (hnotEmpty :
      ¬((buildContext MAX_CONTEXT_CHAR_LIMIT fetchFile paths initContext).totalChars = 0 ∧
        0 < paths.length))
    (hpre : ∀ u ∈ pre, (engine u.prompt).error = none)
    (hfail : (engine t.prompt).error = some msg) :
    runAnalysis fetchFile engine paths =
      [.system ("Received " ++ toString paths.length ++
          " file paths. Starting processing."),
       .system "Fetching repository files from GitHub..."] ++
        (buildContext MAX_CONTEXT_CHAR_LIMIT fetchFile paths initContext).events ++
        [.system ("Context built with " ++
            toString (buildContext MAX_CONTEXT_CHAR_LIMIT fetchFile paths
              initContext).filesIncludedCount ++
            " files. Starting analysis tasks.")] ++
        (pre.map (taskBlock engine)).flatten ++ taskBlock engine t ++
        [fatalErrorEvent msg]
    ∧ (∀ u ∈ pre, StreamEvent.task_end u.id none ∈ runAnalysis fetchFile engine paths)
    ∧ StreamEvent.task_end t.id (some msg) ∈ runAnalysis fetchFile engine paths := by
  have hrun := runTasks_halt engine pre t suf msg hfail hpre
  have hout : runAnalysis fetchFile engine paths =
      [.system ("Received " ++ toString paths.length ++
          " file paths. Starting processing."),
       .system "Fetching repository files from GitHub..."] ++
        (buildContext MAX_CONTEXT_CHAR_LIMIT fetchFile paths initContext).events ++
        [.system ("Context built with " ++
            toString (buildContext MAX_CONTEXT_CHAR_LIMIT fetchFile paths
              initContext).filesIncludedCount ++
            " files. Starting analysis tasks.")] ++
        (pre.map (taskBlock engine)).flatten ++ taskBlock engine t ++
        [fatalErrorEvent msg] := by
    simp only [runAnalysis]
    rw [if_neg hnotEmpty, hsplit, hrun]
    simp [List.append_assoc]
  refine ⟨hout, ?_, ?_⟩
  · intro u hu
    rw [hout]
    have hmem : taskBlock engine u ∈ pre.map (taskBlock engine) :=
      List.mem_map_of_mem (taskBlock engine) hu
    have : StreamEvent.task_end u.id none ∈ (pre.map (taskBlock engine)).flatten :=
      List.mem_flatten.mpr ⟨taskBlock engine u, hmem, task_end_mem_taskBlock_ok engine u (hpre u hu)⟩
    simp [List.mem_append, this]
  · rw [hout]
    have := task_end_mem_taskBlock_fail engine t msg hfail
    simp [List.mem_append, this]

/-- Witness for the amended C1: a concrete run in which the third task
(architecture) fails with message `kaput`; its error terminal event is in
the stream. -/
theorem task_failure_halts_sequence_witness :
    StreamEvent.task_end "architecture" (some "kaput") ∈
      runAnalysis (fun _ => Except.ok "y")
        (fun prompt =>
          if prompt.data.take 8 = ("Critique").data then ⟨[], some "kaput"⟩
          else ⟨["d"], none⟩)
        ["b"] := by
  have h := task_failure_halts_sequence (fun _ => Except.ok "y")
    (fun prompt =>
      if prompt.data.take 8 = ("Critique").data then ⟨[], some "kaput"⟩
      else ⟨["d"], none⟩)
    ["b"]
    ((analysisTasks (buildContext MAX_CONTEXT_CHAR_LIMIT (fun _ => Except.ok "y")
        ["b"] initContext).fileContentsString).take 2)
    ((analysisTasks (buildContext MAX_CONTEXT_CHAR_LIMIT (fun _ => Except.ok "y")
        ["b"] initContext).fileContentsString).get ⟨2, by decide⟩)
    ((analysisTasks (buildContext MAX_CONTEXT_CHAR_LIMIT (fun _ => Except.ok "y")
        ["b"] initContext).fileContentsString).drop 3)
    "kaput" (by decide) (by decide) (by decide) (by decide)
  exact h.2.2

/-- Counterexample to C1 as stated: in a run where the third task
(architecture) fails, the sequencer does not continue: the fourth task
(error trends) is never started, even though the failing task did get
its `task_end` error event. -/
theorem partial_failure_isolation_counterexample :
    StreamEvent.task_end "architecture" (some "boom") ∈
        runAnalysis (fun _ => Except.ok "x")
          (fun prompt =>
            if prompt.data.take 8 = ("Critique").data then ⟨[], some "boom"⟩
            else ⟨["done"], none⟩)
          ["a"]
    ∧ StreamEvent.task_start "error_trends" "4. Common Error Trends" ∉
        runAnalysis (fun _ => Except.ok "x")
          (fun prompt =>
            if prompt.data.take 8 = ("Critique").data then ⟨[], some "boom"⟩
            else ⟨["done"], none⟩)
          ["a"]
    ∧ StreamEvent.task_start "suggestions" "5. Actionable Suggestions" ∉
        runAnalysis (fun _ => Except.ok "x")
          (fun prompt =>
            if prompt.data.take 8 = ("Critique").data then ⟨[], some "boom"⟩
            else ⟨["done"], none⟩)
          ["a"] := by
  refine ⟨by decide, by decide, by decide⟩

/-! ### Claims about the Context Builder -/

/-- The successfully fetched files of the loop, in path order, with
their contents (a failed fetch contributes nothing). -/
def fetchSuccesses (fetchFile : String → Except String String)
    (paths : List String) : List (String × String) :=
  paths.filterMap fun p =>
    match fetchFile p with
    | .ok c => some (p, c)
    | .error _ => none

/-- Content sizes of the successfully fetched files, in order. -/
def successSizes (fetchFile : String → Except String String)
    (paths : List String) : List Nat :=
  (fetchSuccesses fetchFile paths).map fun pc => pc.2.length

/-- Specification-side count, following the truncation policy's words:
after the first file, keep including while the running total plus the
next size stays within the budget. -/
def specTailCount (limit : Nat) : Nat → List Nat → Nat
  | _, [] => 0
  | total, n :: rest =>
    if limit < total + n then 0 else 1 + specTailCount limit (total + n) rest

/-- Specification-side included-file count: determined only by the order
and sizes of the successfully fetched files; the first is always
included regardless of size. -/
def specIncludedCount (limit : Nat) : List Nat → Nat
  | [] => 0
  | n :: rest => 1 + specTailCount limit n rest

/-- Corpus text made of the records of a file list. -/
def recordsText : List (String × String) → String
  | [] => ""
  | pc :: rest => fileRecord pc.1 pc.2 ++ recordsText rest

/-- Unfolding of `fetchSuccesses` at a successfully fetched head path. -/
theorem fetchSuccesses_cons_ok (fetchFile : String → Except String String)
    (p content : String) (rest : List String)
    (hf : fetchFile p = .ok content) :
    fetchSuccesses fetchFile (p :: rest) =
      (p, content) :: fetchSuccesses fetchFile rest := by
  simp [fetchSuccesses, hf]

/-- Unfolding of `fetchSuccesses` at a failing head path. -/
theorem fetchSuccesses_cons_err (fetchFile : String → Except String String)
    (p m : String) (rest : List String) (hf : fetchFile p = .error m) :
    fetchSuccesses fetchFile (p :: rest) = fetchSuccesses fetchFile rest := by
  simp [fetchSuccesses, hf]

/-- Unfolding of `successSizes` at a successfully fetched head path. -/
theorem successSizes_cons_ok (fetchFile : String → Except String String)
    (p content : String) (rest : List String)
    (hf : fetchFile p = .ok content) :
    successSizes fetchFile (p :: rest) =
      content.length :: successSizes fetchFile rest := by
  simp [successSizes, fetchSuccesses_cons_ok fetchFile p content rest hf]

/-- Unfolding of `successSizes` at a failing head path. -/
theorem successSizes_cons_err (fetchFile : String → Except String String)
    (p m : String) (rest : List String) (hf : fetchFile p = .error m) :
    successSizes fetchFile (p :: rest) = successSizes fetchFile rest := by
  simp [successSizes, fetchSuccesses_cons_err fetchFile p m rest hf]

/-- Invariant of the fetch loop once at least one file is included: the
remaining run includes exactly `specTailCount` more files, accumulating
their sizes and records. -/
theorem buildContext_count_pos (limit : Nat)
    (fetchFile : String → Except String String) :
    ∀ (paths : List String) (acc : ContextAcc), 0 < acc.filesIncludedCount →
      (buildContext limit fetchFile paths acc).filesIncludedCount =
          acc.filesIncludedCount +
            specTailCount limit acc.totalChars (successSizes fetchFile paths)
      ∧ (buildContext limit fetchFile paths acc).totalChars =
          acc.totalChars +
            ((successSizes fetchFile paths).take
              (specTailCount limit acc.totalChars (successSizes fetchFile paths))).sum
      ∧ (buildContext limit fetchFile paths acc).fileContentsString =
          acc.fileContentsString ++
            recordsText ((fetchSuccesses fetchFile paths).take
              (specTailCount limit acc.totalChars
                (successSizes fetchFile paths))) := by
  intro paths
  induction paths with
  | nil =>
    intro acc _
    simp [buildContext, successSizes, fetchSuccesses, specTailCount, recordsText]
  | cons p rest ih =>
    intro acc hpos
    cases hf : fetchFile p with
    | error m =>
      have h := ih { acc with
          events := acc.events ++
            [.processing_file p (fetchErrorRecord m)] } hpos
      simpa [buildContext, hf, successSizes, fetchSuccesses] using h
    | ok content =>
      by_cases hbudget : limit < acc.totalChars + content.length
      · have hcond : 0 < acc.filesIncludedCount ∧
            limit < acc.totalChars + content.length := ⟨hpos, hbudget⟩
        simp [buildContext, hf, if_pos hcond, successSizes, fetchSuccesses,
          specTailCount, if_pos hbudget, recordsText]
      · have hcond : ¬(0 < acc.filesIncludedCount ∧
            limit < acc.totalChars + content.length) := fun h => hbudget h.2
        have h := ih
          { fileContentsString := acc.fileContentsString ++ fileRecord p content
            totalChars := acc.totalChars + content.length
            filesIncludedCount := acc.filesIncludedCount + 1
            events := acc.events ++ [.processing_file p content] }
          (Nat.succ_pos _)
        simp only [buildContext, hf, if_neg hcond] at h ⊢
        simp only [successSizes, fetchSuccesses, List.filterMap_cons, hf] at h ⊢
        rcases h with ⟨h1, h2, h3⟩
        refine ⟨?_, ?_, ?_⟩
        · rw [h1]
          simp [specTailCount, if_neg hbudget]
          omega
        · rw [h2]
          simp [specTailCount, if_neg hbudget, List.take_cons, recordsText]
          omega
        · rw [h3]
          simp [specTailCount, if_neg hbudget, List.take_cons, recordsText,
            String.append_assoc]

/-- Run of the fetch loop from the initial accumulator: the included
count and the corpus are exactly the specification-side ones. -/
theorem buildContext_from_zero (limit : Nat)
    (fetchFile : String → Except String String) :
    ∀ (paths : List String) (acc : ContextAcc),
      acc.filesIncludedCount = 0 → acc.totalChars = 0 →
      (buildContext limit fetchFile paths acc).filesIncludedCount =
          specIncludedCount limit (successSizes fetchFile paths)
      ∧ (buildContext limit fetchFile paths acc).fileContentsString =
          acc.fileContentsString ++
            recordsText ((fetchSuccesses fetchFile paths).take
              (specIncludedCount limit (successSizes fetchFile paths))) := by
  intro paths
  induction paths with
  | nil =>
    intro acc h0 _
    simp [buildContext, successSizes, fetchSuccesses, specIncludedCount,
      recordsText, h0]
  | cons p rest ih =>
    intro acc h0 ht
    cases hf : fetchFile p with
    | error m =>
      have h := ih { acc with
          events := acc.events ++
            [.processing_file p (fetchErrorRecord m)] } h0 ht
      simpa [buildContext, hf, successSizes, fetchSuccesses] using h
    | ok content =>
      have hcond : ¬(0 < acc.filesIncludedCount ∧
          limit < acc.totalChars + content.length) := by
        rw [h0]; exact fun h => Nat.lt_irrefl 0 h.1
      have h := buildContext_count_pos limit fetchFile rest
        { fileContentsString := acc.fileContentsString ++ fileRecord p content
          totalChars := acc.totalChars + content.length
          filesIncludedCount := acc.filesIncludedCount + 1
          events := acc.events ++ [.processing_file p content] }
        (Nat.succ_pos _)
      simp only [buildContext, hf, if_neg hcond]
      rw [successSizes_cons_ok fetchFile p content rest hf,
        fetchSuccesses_cons_ok fetchFile p content rest hf]
      rcases h with ⟨h1, _, h3⟩
      constructor
      · rw [h1]
        simp [specIncludedCount, h0, ht]
      · rw [h3]
        simp [specIncludedCount, ht, List.take_cons, recordsText,
          String.append_assoc]

/-- Whenever fewer files end up included than were successfully fetched,
the budget notification with the final included count was emitted. -/
theorem buildContext_cutoff (limit : Nat)
    (fetchFile : String → Except String String) :
    ∀ (paths : List String) (acc : ContextAcc),
      (buildContext limit fetchFile paths acc).filesIncludedCount <
          acc.filesIncludedCount + (fetchSuccesses fetchFile paths).length →
      StreamEvent.system (contextLimitMsg limit
          (buildContext limit fetchFile paths acc).filesIncludedCount)
        ∈ (buildContext limit fetchFile paths acc).events := by
  intro paths
  induction paths with
  | nil =>
    intro acc h
    simp [buildContext, fetchSuccesses] at h
  | cons p rest ih =>
    intro acc h
    cases hf : fetchFile p with
    | error m =>
      have h2 : (buildContext limit fetchFile rest
            { acc with events := acc.events ++
                [.processing_file p (fetchErrorRecord m)] }).filesIncludedCount <
          acc.filesIncludedCount + (fetchSuccesses fetchFile rest).length := by
        simpa [buildContext, hf, fetchSuccesses] using h
      have := ih _ h2
      simpa [buildContext, hf] using this
    | ok content =>
      by_cases hcond : 0 < acc.filesIncludedCount ∧
          limit < acc.totalChars + content.length
      · simp [buildContext, hf, if_pos hcond]
      · have h2 : (buildContext limit fetchFile rest
            { fileContentsString := acc.fileContentsString ++ fileRecord p content
              totalChars := acc.totalChars + content.length
              filesIncludedCount := acc.filesIncludedCount + 1
              events := acc.events ++ [.processing_file p content] }).filesIncludedCount <
            (acc.filesIncludedCount + 1) + (fetchSuccesses fetchFile rest).length := by
          rw [fetchSuccesses_cons_ok fetchFile p content rest hf,
            List.length_cons] at h
          simp only [buildContext, hf, if_neg hcond] at h
          omega
        have hmem := ih _ h2
        simpa [buildContext, hf, if_neg hcond] using hmem

/-- C2: truncation determinism of the Context Builder.  The number of
included files and the assembled corpus are exactly the
specification-side greedy prefix of the successfully fetched files,
determined only by their order and content sizes; the first successful
file is always included even when it alone exceeds the budget; and
whenever the budget cut-off excludes any successfully fetched file, a
notification stating the included-file count is emitted.  (The server
instantiates `limit` with its fixed 750,000-character budget.) -/
theorem truncation_determinism (limit : Nat)
    (fetchFile : String → Except String String) (paths : List String) :
    (buildContext limit fetchFile paths initContext).filesIncludedCount =
        specIncludedCount limit (successSizes fetchFile paths)
    ∧ (buildContext limit fetchFile paths initContext).fileContentsString =
        recordsText ((fetchSuccesses fetchFile paths).take
          (specIncludedCount limit (successSizes fetchFile paths)))
    ∧ (fetchSuccesses fetchFile paths ≠ [] →
        0 < (buildContext limit fetchFile paths initContext).filesIncludedCount)
    ∧ ((buildContext limit fetchFile paths initContext).filesIncludedCount <
          (fetchSuccesses fetchFile paths).length →
        StreamEvent.system (contextLimitMsg limit
            (buildContext limit fetchFile paths initContext).filesIncludedCount)
          ∈ (buildContext limit fetchFile paths initContext).events) := by
  have h := buildContext_from_zero limit fetchFile paths initContext rfl rfl
  refine ⟨h.1, ?_, ?_, ?_⟩
  · rw [h.2]
    exact String.empty_append _
  · intro hne
    rw [h.1]
    rcases hs : fetchSuccesses fetchFile paths with _ | ⟨pc, rest⟩
    · exact absurd hs hne
    · simp [successSizes, hs, specIncludedCount]
  · intro hlt
    exact buildContext_cutoff limit fetchFile paths initContext
      (by simpa [initContext] using hlt)

/-- Witness for C2, after Scenario A of the spec: two 10-character files
against budget 15 — exactly the first file is included, the reported
count is 1, and the budget notification is emitted. -/
theorem truncation_determinism_witness :
    (buildContext 15 (fun _ => Except.ok "0123456789") ["a.txt", "b.txt"]
        initContext).filesIncludedCount = 1
    ∧ StreamEvent.system (contextLimitMsg 15 1) ∈
        (buildContext 15 (fun _ => Except.ok "0123456789") ["a.txt", "b.txt"]
          initContext).events := by
  have h := truncation_determinism 15 (fun _ => Except.ok "0123456789")
    ["a.txt", "b.txt"]
  exact ⟨h.1.trans (by decide), h.2.2.2 (by decide)⟩

/-- When every fetch fails, the loop leaves totals, count and corpus
untouched and adds only `processing_file` placeholder events. -/
theorem buildContext_all_fail (limit : Nat)
    (fetchFile : String → Except String String) :
    ∀ (paths : List String) (acc : ContextAcc),
      (∀ p ∈ paths, ∃ m, fetchFile p = .error m) →
      (buildContext limit fetchFile paths acc).totalChars = acc.totalChars
      ∧ (buildContext limit fetchFile paths acc).filesIncludedCount =
          acc.filesIncludedCount
      ∧ ∀ e ∈ (buildContext limit fetchFile paths acc).events,
          e ∈ acc.events ∨ ∃ p m, e = StreamEvent.processing_file p m := by
  intro paths
  induction paths with
  | nil =>
    intro acc _
    exact ⟨rfl, rfl, fun e he => Or.inl he⟩
  | cons p rest ih =>
    intro acc hfail
    obtain ⟨m, hm⟩ := hfail p (List.mem_cons_self p rest)
    have h := ih { acc with
        events := acc.events ++ [.processing_file p (fetchErrorRecord m)] }
      fun q hq => hfail q (List.mem_cons_of_mem p hq)
    refine ⟨?_, ?_, ?_⟩
    · simpa [buildContext, hm] using h.1
    · simpa [buildContext, hm] using h.2.1
    · intro e he
      have he2 : e ∈ (buildContext limit fetchFile rest
          { acc with events := acc.events ++
              [.processing_file p (fetchErrorRecord m)] }).events := by
        simpa [buildContext, hm] using he
      rcases h.2.2 e he2 with hmem | hx
      · rcases List.mem_append.mp hmem with hl | hr
        · exact Or.inl hl
        · right
          rcases List.mem_singleton.mp hr with rfl
          exact ⟨p, fetchErrorRecord m, rfl⟩
      · exact Or.inr hx

/-- C4: corpus-empty hard failure.  If the requested path list is
non-empty but no file's content could be fetched, the server emits the
"nothing to analyze" abort message and returns before the task loop: no
`task_start` event is ever emitted. -/
theorem corpus_empty_hard_failure (fetchFile : String → Except String String)
    (engine : String → EngineResult) (paths : List String)
    (hne : paths ≠ [])
    (hfail : ∀ p ∈ paths, ∃ m, fetchFile p = .error m) :
    StreamEvent.system corpusEmptyMsg ∈ runAnalysis fetchFile engine paths
    ∧ ∀ id title,
        StreamEvent.task_start id title ∉ runAnalysis fetchFile engine paths := by
  have hb := buildContext_all_fail MAX_CONTEXT_CHAR_LIMIT fetchFile paths
    initContext hfail
  have hcond :
      (buildContext MAX_CONTEXT_CHAR_LIMIT fetchFile paths
        initContext).totalChars = 0 ∧ 0 < paths.length := by
    refine ⟨?_, List.length_pos.mpr hne⟩
    simpa [initContext] using hb.1
  have hout : runAnalysis fetchFile engine paths =
      [.system ("Received " ++ toString paths.length ++
          " file paths. Starting processing."),
       .system "Fetching repository files from GitHub..."] ++
        (buildContext MAX_CONTEXT_CHAR_LIMIT fetchFile paths initContext).events ++
        [.system corpusEmptyMsg] := by
    simp only [runAnalysis]
    rw [if_pos hcond]
  constructor
  · rw [hout]
    simp
  · intro id title hmem
    rw [hout] at hmem
    rcases List.mem_append.mp hmem with hmem1 | hmem2
    · rcases List.mem_append.mp hmem1 with hh | hctx
      · simp at hh
      · rcases hb.2.2 _ hctx with hinit | ⟨q, mm, habs⟩
        · simp [initContext] at hinit
        · exact StreamEvent.noConfusion habs
    · simp at hmem2

/-- Witness for C4: one path whose fetch fails with a 404-style message;
the abort message is emitted and the first task is never started. -/
theorem corpus_empty_hard_failure_witness :
    StreamEvent.system corpusEmptyMsg ∈
        runAnalysis (fun _ => Except.error "status 404")
          (fun _ => ⟨["d"], none⟩) ["a"]
    ∧ StreamEvent.task_start "summary" "1. Project Summary" ∉
        runAnalysis (fun _ => Except.error "status 404")
          (fun _ => ⟨["d"], none⟩) ["a"] := by
  have h := corpus_empty_hard_failure (fun _ => Except.error "status 404")
    (fun _ => ⟨["d"], none⟩) ["a"] (by decide)
    (fun p _ => ⟨"status 404", rfl⟩)
  exact ⟨h.1, h.2 "summary" "1. Project Summary"⟩

/-! ### Claim about per-task event ordering -/

/-- Discriminator for the three per-task event kinds. -/
def isTaskEvent : StreamEvent → Bool
  | .task_start _ _ => true
  | .task_chunk _ _ => true
  | .task_end _ _ => true
  | _ => false

/-- Projection of a stream to its per-task events, in emission order. -/
def taskEventsOf (evs : List StreamEvent) : List StreamEvent :=
  evs.filter isTaskEvent

/-- Well-formed per-task blocks: the stream decomposes into consecutive
segments, one per listed task id, each a single `task_start`, then only
that id's `task_chunk`s, then exactly one terminal `task_end` for that
id.  In particular no event of another task falls between a task's
start and its end. -/
inductive TaskBlocks : List String → List StreamEvent → Prop where
  | nil : TaskBlocks [] []
  | block (id title : String) (chunks : List String) (err : Option String)
      (ids : List String) (rest : List StreamEvent) :
      TaskBlocks ids rest →
      TaskBlocks (id :: ids)
        (StreamEvent.task_start id title ::
          (chunks.map (StreamEvent.task_chunk id) ++
            StreamEvent.task_end id err :: rest))

/-- The task-event projection distributes over append. -/
theorem taskEventsOf_append (a b : List StreamEvent) :
    taskEventsOf (a ++ b) = taskEventsOf a ++ taskEventsOf b :=
  List.filter_append a b

/-- Chunk events survive the task-event projection unchanged. -/
theorem filter_chunkEvents (id : String) (l : List String) :
    (l.map (StreamEvent.task_chunk id)).filter isTaskEvent =
      l.map (StreamEvent.task_chunk id) := by
  induction l with
  | nil => rfl
  | cons c cs ih => simp [List.filter_cons, isTaskEvent, ih]

/-- A stream without task events projects to the empty list. -/
theorem taskEventsOf_eq_nil (evs : List StreamEvent)
    (h : ∀ e ∈ evs, isTaskEvent e = false) : taskEventsOf evs = [] := by
  induction evs with
  | nil => rfl
  | cons e es ih =>
    have he := h e (List.mem_cons_self e es)
    have ihh := ih fun x hx => h x (List.mem_cons_of_mem e hx)
    simp only [taskEventsOf, List.filter_cons, he] at ihh ⊢
    simpa using ihh

/-- Normal form of one task's event block. -/
theorem taskBlock_eq (engine : String → EngineResult) (t : TaskSpec) :
    taskBlock engine t =
      StreamEvent.task_start t.id t.title ::
        (((engine t.prompt).chunks.filter (· != "")).map
            (StreamEvent.task_chunk t.id) ++
          [StreamEvent.task_end t.id (engine t.prompt).error]) := by
  cases herr : (engine t.prompt).error <;>
    simp [taskBlock, performStreamingTask, herr]

/-- Projecting a block followed by further events. -/
theorem taskEventsOf_block_append (engine : String → EngineResult)
    (t : TaskSpec) (evs : List StreamEvent) :
    taskEventsOf (taskBlock engine t ++ evs) =
      StreamEvent.task_start t.id t.title ::
        (((engine t.prompt).chunks.filter (· != "")).map
            (StreamEvent.task_chunk t.id) ++
          StreamEvent.task_end t.id (engine t.prompt).error ::
            taskEventsOf evs) := by
  rw [taskBlock_eq]
  simp [taskEventsOf, List.filter_cons, List.filter_append, isTaskEvent,
    filter_chunkEvents]

/-- The task loop's output always decomposes into well-formed per-task
blocks, for a subsequence of the given task ids. -/
theorem runTasks_blocks (engine : String → EngineResult) :
    ∀ ts : List TaskSpec, ∃ ids : List String,
      TaskBlocks ids (taskEventsOf (runTasks engine ts).1)
      ∧ ids.Sublist (ts.map TaskSpec.id) := by
  intro ts
  induction ts with
  | nil =>
    refine ⟨[], ?_, by simp⟩
    show TaskBlocks [] (taskEventsOf (runTasks engine []).1)
    simpa [runTasks, taskEventsOf] using TaskBlocks.nil
  | cons t rest ih =>
    obtain ⟨ids, hblocks, hsub⟩ := ih
    cases herr : (engine t.prompt).error with
    | some msg =>
      refine ⟨[t.id], ?_, ?_⟩
      · rw [runTasks_cons_fail engine t rest msg herr]
        have h := taskEventsOf_block_append engine t []
        rw [List.append_nil] at h
        rw [h, herr]
        show TaskBlocks [t.id]
          (StreamEvent.task_start t.id t.title ::
            (((engine t.prompt).chunks.filter (· != "")).map
                (StreamEvent.task_chunk t.id) ++
              StreamEvent.task_end t.id (some msg) :: taskEventsOf []))
        exact TaskBlocks.block t.id t.title _ (some msg) [] _ TaskBlocks.nil
      · exact (List.nil_sublist (rest.map TaskSpec.id)).cons₂ t.id
    | none =>
      refine ⟨t.id :: ids, ?_, ?_⟩
      · rw [runTasks_cons_ok engine t rest herr]
        rw [taskEventsOf_block_append engine t, herr]
        exact TaskBlocks.block t.id t.title _ none ids _ hblocks
      · simpa using hsub.cons₂ t.id

/-- All events emitted by the fetch loop are `processing_file` or
`system` events (never task events). -/
theorem buildContext_events_kinds (limit : Nat)
    (fetchFile : String → Except String String) :
    ∀ (paths : List String) (acc : ContextAcc),
      ∀ e ∈ (buildContext limit fetchFile paths acc).events,
        e ∈ acc.events ∨ (∃ p c, e = StreamEvent.processing_file p c)
          ∨ ∃ m, e = StreamEvent.system m := by
  intro paths
  induction paths with
  | nil =>
    intro acc e he
    exact Or.inl he
  | cons p rest ih =>
    intro acc e he
    cases hf : fetchFile p with
    | error m =>
      have he2 : e ∈ (buildContext limit fetchFile rest
          { acc with events := acc.events ++
              [.processing_file p (fetchErrorRecord m)] }).events := by
        simpa [buildContext, hf] using he
      rcases ih _ e he2 with hmem | hx | hx
      · rcases List.mem_append.mp hmem with hl | hr
        · exact Or.inl hl
        · rcases List.mem_singleton.mp hr with rfl
          exact Or.inr (Or.inl ⟨p, fetchErrorRecord m, rfl⟩)
      · exact Or.inr (Or.inl hx)
      · exact Or.inr (Or.inr hx)
    | ok content =>
      by_cases hcond : 0 < acc.filesIncludedCount ∧
          limit < acc.totalChars + content.length
      · have he2 : e ∈ acc.events ++
            [StreamEvent.system (contextLimitMsg limit acc.filesIncludedCount)] := by
          simpa [buildContext, hf, if_pos hcond] using he
        rcases List.mem_append.mp he2 with hl | hr
        · exact Or.inl hl
        · rcases List.mem_singleton.mp hr with rfl
          exact Or.inr (Or.inr ⟨_, rfl⟩)
      · have he2 : e ∈ (buildContext limit fetchFile rest
            { fileContentsString := acc.fileContentsString ++ fileRecord p content
              totalChars := acc.totalChars + content.length
              filesIncludedCount := acc.filesIncludedCount + 1
              events := acc.events ++ [.processing_file p content] }).events := by
          simpa [buildContext, hf, if_neg hcond] using he
        rcases ih _ e he2 with hmem | hx | hx
        · rcases List.mem_append.mp hmem with hl | hr
          · exact Or.inl hl
          · rcases List.mem_singleton.mp hr with rfl
            exact Or.inr (Or.inl ⟨p, content, rfl⟩)
        · exact Or.inr (Or.inl hx)
        · exact Or.inr (Or.inr hx)

/-- C5: per-task event ordering.  Every event stream the producer emits
projects, on its task events, onto a sequence of well-formed per-task
blocks with pairwise distinct task ids: for each started task, its
single `task_start` precedes all its `task_chunk`s, which precede its
single terminal `task_end`, and no other task's events interleave —
tasks execute and emit strictly one at a time. -/
theorem per_task_event_ordering (fetchFile : String → Except String String)
    (engine : String → EngineResult) (paths : List String) :
    ∃ ids : List String,
      TaskBlocks ids (taskEventsOf (runAnalysis fetchFile engine paths))
      ∧ ids.Nodup := by
  have hctxnil : taskEventsOf
      (buildContext MAX_CONTEXT_CHAR_LIMIT fetchFile paths initContext).events = [] := by
    apply taskEventsOf_eq_nil
    intro e he
    rcases buildContext_events_kinds MAX_CONTEXT_CHAR_LIMIT fetchFile paths
      initContext e he with h0 | ⟨p, c, rfl⟩ | ⟨m, rfl⟩
    · simp [initContext] at h0
    · rfl
    · rfl
  by_cases hcond : (buildContext MAX_CONTEXT_CHAR_LIMIT fetchFile paths
      initContext).totalChars = 0 ∧ 0 < paths.length
  · refine ⟨[], ?_, List.nodup_nil⟩
    have hout : runAnalysis fetchFile engine paths =
        [.system ("Received " ++ toString paths.length ++
            " file paths. Starting processing."),
         .system "Fetching repository files from GitHub..."] ++
          (buildContext MAX_CONTEXT_CHAR_LIMIT fetchFile paths initContext).events ++
          [.system corpusEmptyMsg] := by
      simp only [runAnalysis]
      rw [if_pos hcond]
    rw [hout, taskEventsOf_append, taskEventsOf_append, hctxnil]
    have h1 : taskEventsOf
        [StreamEvent.system ("Received " ++ toString paths.length ++
            " file paths. Starting processing."),
         StreamEvent.system "Fetching repository files from GitHub..."] = [] := rfl
    have h2 : taskEventsOf [StreamEvent.system corpusEmptyMsg] = [] := rfl
    rw [h1, h2]
    exact TaskBlocks.nil
  · obtain ⟨ids, hblocks, hsub⟩ := runTasks_blocks engine
      (analysisTasks (buildContext MAX_CONTEXT_CHAR_LIMIT fetchFile paths
        initContext).fileContentsString)
    refine ⟨ids, ?_, ?_⟩
    · have hout : runAnalysis fetchFile engine paths =
          [.system ("Received " ++ toString paths.length ++
              " file paths. Starting processing."),
           .system "Fetching repository files from GitHub..."] ++
            (buildContext MAX_CONTEXT_CHAR_LIMIT fetchFile paths initContext).events ++
            [.system ("Context built with " ++
                toString (buildContext MAX_CONTEXT_CHAR_LIMIT fetchFile paths
                  initContext).filesIncludedCount ++
                " files. Starting analysis tasks.")] ++
            (runTasks engine (analysisTasks (buildContext MAX_CONTEXT_CHAR_LIMIT
              fetchFile paths initContext).fileContentsString)).1 ++
            (match (runTasks engine (analysisTasks (buildContext MAX_CONTEXT_CHAR_LIMIT
              fetchFile paths initContext).fileContentsString)).2 with
             | some msg => [fatalErrorEvent msg]
             | none => []) := by
        simp only [runAnalysis]
        rw [if_neg hcond]
      rw [hout, taskEventsOf_append, taskEventsOf_append, taskEventsOf_append,
        taskEventsOf_append, hctxnil]
      have h1 : taskEventsOf
          [StreamEvent.system ("Received " ++ toString paths.length ++
              " file paths. Starting processing."),
           StreamEvent.system "Fetching repository files from GitHub..."] = [] := rfl
      have h2 : taskEventsOf
          [StreamEvent.system ("Context built with " ++
              toString (buildContext MAX_CONTEXT_CHAR_LIMIT fetchFile paths
                initContext).filesIncludedCount ++
              " files. Starting analysis tasks.")] = [] := rfl
      have h3 : taskEventsOf
          (match (runTasks engine (analysisTasks (buildContext MAX_CONTEXT_CHAR_LIMIT
            fetchFile paths initContext).fileContentsString)).2 with
           | some msg => [fatalErrorEvent msg]
           | none => []) = [] := by
        cases (runTasks engine (analysisTasks (buildContext MAX_CONTEXT_CHAR_LIMIT
          fetchFile paths initContext).fileContentsString)).2 <;> rfl
      rw [h1, h2, h3]
      simp only [List.nil_append, List.append_nil]
      exact hblocks
    · have hids : (analysisTasks (buildContext MAX_CONTEXT_CHAR_LIMIT fetchFile
          paths initContext).fileContentsString).map TaskSpec.id =
        ["summary", "tech_stack", "architecture", "error_trends", "suggestions"] := rfl
      rw [hids] at hsub
      exact hsub.nodup (by decide)

/-! ## Repository Tree Walker (`fetchAllFilePaths`, githubService.ts)

The walker keeps a scan stack (a JavaScript array popped from its end —
modelled as a list popped from its head, with children pushed in source
order, which is exactly what the source's `push(...[...children].reverse())`
achieves), a set of already-scanned paths, the collected file paths, and
the progress log written through `onProgress`.  The external directory
listing (`fetchFolderContents`, an HTTP round trip) is the parameter
`listing`; `Except.error` is a thrown listing error with its message.
The loop always terminates on a finite repository; the embedding makes
this explicit with a fuel argument, and every claim below holds for
every fuel. -/

/-- A node of the repository tree (`RepoTreeNode` in the types file):
`children = none` marks a folder whose contents were not yet fetched. -/
inductive RepoTreeNode where
  | file (path name : String) (size : Nat)
  | folder (path name : String) (children : Option (List RepoTreeNode))

/-- Path of a node (`node.path`). -/
def nodePath : RepoTreeNode → String
  | .file p _ _ => p
  | .folder p _ _ => p

/-- State of the traversal loop. -/
structure WalkState where
  allPaths : List String
  stack : List RepoTreeNode
  scanned : List String
  log : List String

/-- JavaScript `node.path || '/'`. -/
def displayPath (p : String) : String := if p = "" then "/" else p

/-- The per-folder progress message. -/
def scanningMsg (p : String) : String :=
  "Scanning directory: " ++ displayPath p

/-- The progress message for a folder whose listing failed. -/
def scanErrorMsg (p msg : String) : String :=
  "ERROR scanning directory " ++ displayPath p ++ ": " ++ msg

/-- The safety-cap notification. -/
def capMsg : String :=
  "Reached 100 files. Limiting analysis to the first 100 files found."

/-- The walker loop: pop a node; skip it if its path was already
scanned; record a file's path; expand a folder through `listing`,
logging the scan and, on failure, the error while continuing; after each
processed node, stop with a notification once 100 paths are collected.
Returns the collected paths and the progress log. -/
def fetchAllFilePaths (listing : String → Except String (List RepoTreeNode)) :
    Nat → WalkState → List String × List String
  | 0, st => (st.allPaths, st.log)
  | fuel + 1, st =>
    match st.stack with
    | [] => (st.allPaths, st.log)
    | node :: rest =>
      if nodePath node ∈ st.scanned then
        fetchAllFilePaths listing fuel { st with stack := rest }
      else
        let st1 : WalkState :=
          { st with stack := rest, scanned := nodePath node :: st.scanned }
        let st2 : WalkState :=
          match node with
          | .file p _ _ => { st1 with allPaths := st1.allPaths ++ [p] }
          | .folder p _ _ =>
            match listing p with
            | .ok children =>
              { st1 with
                  stack := children ++ st1.stack
                  log := st1.log ++ [scanningMsg p] }
            | .error msg =>
              { st1 with log := st1.log ++ [scanningMsg p, scanErrorMsg p msg] }
        if 100 ≤ st2.allPaths.length then
          (st2.allPaths.take 100, st2.log ++ [capMsg])
        else
          fetchAllFilePaths listing fuel st2

/-- The walk's starting state over an initial tree (the source copies
the initial array and pops from its end). -/
def initWalk (initialTree : List RepoTreeNode) : WalkState :=
  ⟨[], initialTree.reverse, [], []⟩

/-- Cap invariant of the walker loop: from any state with at most 99
collected paths, the result never exceeds 100 paths, and reaching
exactly 100 paths means the cap notification was logged. -/
theorem fetchAllFilePaths_cap (listing : String → Except String (List RepoTreeNode)) :
    ∀ (fuel : Nat) (st : WalkState), st.allPaths.length ≤ 99 →
      (fetchAllFilePaths listing fuel st).1.length ≤ 100
      ∧ ((fetchAllFilePaths listing fuel st).1.length = 100 →
          capMsg ∈ (fetchAllFilePaths listing fuel st).2) := by
  intro fuel
  induction fuel with
  | zero =>
    intro st h
    constructor
    · simp only [fetchAllFilePaths]
      omega
    · intro h100
      simp only [fetchAllFilePaths] at h100
      omega
  | succ fuel ih =>
    intro st h
    obtain ⟨paths1, stack1, scanned1, log1⟩ := st
    dsimp at h
    cases stack1 with
    | nil =>
      simp only [fetchAllFilePaths]
      constructor
      · omega
      · intro h100; omega
    | cons node rest =>
      simp only [fetchAllFilePaths]
      by_cases hmem : nodePath node ∈ scanned1
      · simp only [if_pos hmem]
        exact ih _ h
      · simp only [if_neg hmem]
        cases node with
        | file p nm sz =>
          by_cases hcap : 100 ≤ (paths1 ++ [p]).length
          · simp only [if_pos hcap]
            constructor
            · simp
            · intro _
              simp
          · simp only [if_neg hcap]
            refine ih _ ?_
            simp only [List.length_append, List.length_singleton] at hcap ⊢
            omega
        | folder p nm ch =>
          cases hl : listing p with
          | ok children =>
            have hcap : ¬(100 ≤ paths1.length) := by omega
            simp only [hl, if_neg hcap]
            exact ih _ h
          | error m =>
            have hcap : ¬(100 ≤ paths1.length) := by omega
            simp only [hl, if_neg hcap]
            exact ih _ h

/-- C7: discovery safety cap.  For every input tree (and any fuel), the
path list returned by the walker holds at most 100 file paths, and
whenever the 100-file cap is reached the "Reached 100 files..."
notification was emitted through the progress callback. -/
theorem discovery_safety_cap (listing : String → Except String (List RepoTreeNode))
    (fuel : Nat) (initialTree : List RepoTreeNode) :
    (fetchAllFilePaths listing fuel (initWalk initialTree)).1.length ≤ 100
    ∧ ((fetchAllFilePaths listing fuel (initWalk initialTree)).1.length = 100 →
        capMsg ∈ (fetchAllFilePaths listing fuel (initWalk initialTree)).2) :=
  fetchAllFilePaths_cap listing fuel (initWalk initialTree) (by simp [initWalk])

set_option maxRecDepth 100000 in
/-- Witness for C7: a flat tree of 101 files makes the walk stop at
exactly 100 collected paths with the cap notification logged. -/
theorem discovery_safety_cap_witness :
    (fetchAllFilePaths (fun _ => Except.error "404") 150
        (initWalk ((List.range 101).map fun i =>
          RepoTreeNode.file (toString i) (toString i) 0))).1.length = 100
    ∧ capMsg ∈ (fetchAllFilePaths (fun _ => Except.error "404") 150
        (initWalk ((List.range 101).map fun i =>
          RepoTreeNode.file (toString i) (toString i) 0))).2 := by
  refine ⟨by decide, ?_⟩
  exact (discovery_safety_cap (fun _ => Except.error "404") 150
    ((List.range 101).map fun i =>
      RepoTreeNode.file (toString i) (toString i) 0)).2 (by decide)

/-- Simulation: a walk under a listing where `bad` fails collects the
same file paths as the walk under the listing where `bad` lists as
empty, from any two states agreeing on everything but the log. -/
theorem walk_error_eq_empty_aux
    (listing : String → Except String (List RepoTreeNode)) (bad e : String)
    (hbad : listing bad = .error e) :
    ∀ (fuel : Nat) (st st2 : WalkState),
      st.allPaths = st2.allPaths → st.stack = st2.stack → st.scanned = st2.scanned →
      (fetchAllFilePaths listing fuel st).1 =
        (fetchAllFilePaths
          (fun p => if p = bad then Except.ok [] else listing p) fuel st2).1 := by
  intro fuel
  induction fuel with
  | zero =>
    intro st st2 h1 _ _
    simpa [fetchAllFilePaths] using h1
  | succ fuel ih =>
    intro st st2 h1 h2 h3
    obtain ⟨paths1, stack1, scanned1, log1⟩ := st
    obtain ⟨paths2, stack2, scanned2, log2⟩ := st2
    dsimp at h1 h2 h3
    subst h1
    subst h2
    subst h3
    cases stack1 with
    | nil => simp [fetchAllFilePaths]
    | cons node rest =>
      simp only [fetchAllFilePaths]
      by_cases hmem : nodePath node ∈ scanned1
      · simp only [if_pos hmem]
        exact ih _ _ rfl rfl rfl
      · simp only [if_neg hmem]
        cases node with
        | file p nm sz =>
          dsimp only
          by_cases hcap : 100 ≤ (paths1 ++ [p]).length
          · rw [if_pos hcap, if_pos hcap]
          · rw [if_neg hcap, if_neg hcap]
            exact ih _ _ rfl rfl rfl
        | folder p nm ch =>
          dsimp only
          by_cases hp : p = bad
          · rw [hp, hbad]
            simp only [eq_self_iff_true, if_true, List.nil_append]
            by_cases hcap : 100 ≤ paths1.length
            · rw [if_pos hcap, if_pos hcap]
            · rw [if_neg hcap, if_neg hcap]
              exact ih _ _ rfl rfl rfl
          · simp only [if_neg hp]
            cases hl : listing p with
            | ok children =>
              simp only [hl]
              by_cases hcap : 100 ≤ paths1.length
              · rw [if_pos hcap, if_pos hcap]
              · rw [if_neg hcap, if_neg hcap]
                exact ih _ _ rfl rfl rfl
            | error m =>
              simp only [hl]
              by_cases hcap : 100 ≤ paths1.length
              · rw [if_pos hcap, if_pos hcap]
              · rw [if_neg hcap, if_neg hcap]
                exact ih _ _ rfl rfl rfl

/-- C6: tree-walk partial-failure tolerance.  First conjunct: a folder
whose directory listing fails contributes nothing but its log entries —
the walk never aborts and collects exactly the file paths it would
collect were that folder present but empty, so every path reachable
through the other folders is still returned.  Second conjunct (the
spec's Scenario B): over a root holding one folder whose listing 404s
and one folder with two files, the walk returns exactly the two files'
paths, and the progress log notes that the failing folder was skipped. -/
theorem tree_walk_partial_failure
    (listing : String → Except String (List RepoTreeNode)) (bad e : String)
    (hbad : listing bad = .error e) :
    (∀ (fuel : Nat) (st : WalkState),
        (fetchAllFilePaths listing fuel st).1 =
          (fetchAllFilePaths
            (fun p => if p = bad then Except.ok [] else listing p) fuel st).1)
    ∧ ((fetchAllFilePaths
          (fun p => if p = "srcdir" then Except.ok
              [RepoTreeNode.file "srcdir/a.ts" "a.ts" 0,
               RepoTreeNode.file "srcdir/b.ts" "b.ts" 0]
            else Except.error ("Folder not found: " ++ p)) 5
          (initWalk [RepoTreeNode.folder "crashdir" "crashdir" none,
            RepoTreeNode.folder "srcdir" "srcdir" none])).1 =
        ["srcdir/a.ts", "srcdir/b.ts"]
      ∧ scanErrorMsg "crashdir" "Folder not found: crashdir" ∈
          (fetchAllFilePaths
            (fun p => if p = "srcdir" then Except.ok
                [RepoTreeNode.file "srcdir/a.ts" "a.ts" 0,
                 RepoTreeNode.file "srcdir/b.ts" "b.ts" 0]
              else Except.error ("Folder not found: " ++ p)) 5
            (initWalk [RepoTreeNode.folder "crashdir" "crashdir" none,
              RepoTreeNode.folder "srcdir" "srcdir" none])).2) := by
  refine ⟨?_, by decide, by decide⟩
  intro fuel st
  exact walk_error_eq_empty_aux listing bad e hbad fuel st st rfl rfl rfl

/-- Witness for C6: a listing that 404s on folder `bad` but serves
folder `good`; the walk collects the same paths as with `bad` empty,
namely the one file under `good`. -/
theorem tree_walk_partial_failure_witness :
    (fetchAllFilePaths
        (fun p => if p = "good" then Except.ok [RepoTreeNode.file "g1" "g1" 0]
          else Except.error "404") 4
        (initWalk [RepoTreeNode.folder "bad" "bad" none,
          RepoTreeNode.folder "good" "good" none])).1 =
      (fetchAllFilePaths
        (fun p => if p = "bad" then Except.ok []
          else if p = "good" then Except.ok [RepoTreeNode.file "g1" "g1" 0]
          else Except.error "404") 4
        (initWalk [RepoTreeNode.folder "bad" "bad" none,
          RepoTreeNode.folder "good" "good" none])).1
    ∧ (fetchAllFilePaths
        (fun p => if p = "good" then Except.ok [RepoTreeNode.file "g1" "g1" 0]
          else Except.error "404") 4
        (initWalk [RepoTreeNode.folder "bad" "bad" none,
          RepoTreeNode.folder "good" "good" none])).1 = ["g1"] := by
  constructor
  · exact (tree_walk_partial_failure
      (fun p => if p = "good" then Except.ok [RepoTreeNode.file "g1" "g1" 0]
        else Except.error "404") "bad" "404" rfl).1 4
      (initWalk [RepoTreeNode.folder "bad" "bad" none,
        RepoTreeNode.folder "good" "good" none])
  · decide

/-! ## Client reducer (`appReducer`, App.tsx)

The reducer folds the parsed analysis-stream events (dispatched by the
stream-consuming loop) into the application state.  JavaScript `Set` and
`Map` values are modelled as lists (a `Map` as an insertion-ordered
association list).  The actions below are the analysis-stream actions
the consuming loop dispatches; the remaining UI actions (URL editing,
tree expansion, selection, the per-file review flow) touch none of the
state the claims are about. -/

/-- Status of one analysis task (types file). -/
inductive TaskStatus where
  | pending
  | in_progress
  | complete
  | error
deriving DecidableEq, Repr

/-- One `AnalysisTask` record of the client state (types file). -/
structure AnalysisTask where
  id : String
  title : String
  status : TaskStatus
  content : String
  error : Option String
deriving DecidableEq, Repr

/-- The app-level status union of `AppState`. -/
inductive AppStatus where
  | idle
  | loading_repo
  | repo_loaded
  | fetching_files
  | reviewing_files
  | analyzing_repo
  | error
deriving DecidableEq, Repr

/-- A file selected for per-file review (types file). -/
structure RepoFileWithContent where
  path : String
  content : String
  error : Option String

/-- The client application state (`AppState` in App.tsx). -/
structure AppState where
  status : AppStatus
  repoUrl : String
  githubToken : String
  repoTree : List RepoTreeNode
  selectedFilePaths : List String
  filesForReview : Option (List RepoFileWithContent)
  analysisTasks : List AnalysisTask
  allFilesWithContent : List (String × String)
  currentlyProcessingFile : Option String
  logs : List String
  error : Option String

/-- The analysis-stream actions of `AppAction`. -/
inductive AppAction where
  | start_repo_analysis
  | repo_analysis_processing_file (path content : String)
  | repo_analysis_system_event (message : String)
  | repo_analysis_task_start (id title : String)
  | repo_analysis_task_chunk (id chunk : String)
  | repo_analysis_task_end (id : String) (error : Option String)
  | repo_analysis_complete
  | repo_analysis_failure (message : String)
  | add_log (message : String)

/-- JavaScript truthiness of the optional `payload.error` string:
`undefined` and the empty string are falsy. -/
def truthy : Option String → Bool
  | some s => s != ""
  | none => false

/-- JavaScript `Map.prototype.set` on the association-list model:
update in place if the key exists, append otherwise. -/
def mapSet (m : List (String × String)) (k v : String) :
    List (String × String) :=
  if m.any fun kv => kv.1 == k then
    m.map fun kv => if kv.1 == k then (k, v) else kv
  else m ++ [(k, v)]

/-- JavaScript `array.slice(-n)`: the last `n` entries. -/
def lastN (n : Nat) (l : List String) : List String :=
  l.drop (l.length - n)

/-- The reducer cases for the analysis stream (`appReducer`): every
case is a copy-on-write update of the matched fields. -/
def appReducer (state : AppState) (action : AppAction) : AppState :=
  match action with
  | .start_repo_analysis =>
    { state with
        status := .analyzing_repo
        analysisTasks := []
        allFilesWithContent := []
        error := none
        logs := []
        currentlyProcessingFile := none }
  | .repo_analysis_processing_file path content =>
    { state with
        currentlyProcessingFile := some path
        allFilesWithContent := mapSet state.allFilesWithContent path content }
  | .repo_analysis_system_event message =>
    { state with logs := state.logs ++ ["[SYSTEM] " ++ message] }
  | .repo_analysis_task_start id title =>
    { state with
        analysisTasks := state.analysisTasks ++
          [⟨id, title, .in_progress, "", none⟩] }
  | .repo_analysis_task_chunk id chunk =>
    { state with
        analysisTasks := state.analysisTasks.map fun task =>
          if task.id = id then { task with content := task.content ++ chunk }
          else task }
  | .repo_analysis_task_end id err =>
    { state with
        analysisTasks := state.analysisTasks.map fun task =>
          if task.id = id then
            { task with
                status := if truthy err then .error else .complete
                error := if truthy err then err else none }
          else task }
  | .repo_analysis_complete =>
    { state with status := .repo_loaded, currentlyProcessingFile := none }
  | .repo_analysis_failure message =>
    { state with status := .repo_loaded, error := some message }
  | .add_log message =>
    { state with logs := lastN 200 (state.logs ++ [message]) }

/-- Mapping a function that fixes every element is the identity. -/
theorem map_fixes_eq_self (l : List AnalysisTask)
    (f : AnalysisTask → AnalysisTask) (h : ∀ t ∈ l, f t = t) : l.map f = l := by
  induction l with
  | nil => rfl
  | cons a as ih =>
    rw [List.map_cons, h a (List.mem_cons_self a as),
      ih fun x hx => h x (List.mem_cons_of_mem a hx)]

/-- C10: unmatched task events are frame-preserving no-ops in the client
reducer.  A `task_chunk` or `task_end` whose id matches no existing
task record leaves the whole state unchanged — no record is created and
nothing else moves; and in general neither action ever changes the
number of task records (only `task_start` adds one). -/
theorem unmatched_task_events_noop (st : AppState) (id chunk : String)
    (err : Option String)
    (hid : ∀ t ∈ st.analysisTasks, t.id ≠ id) :
    appReducer st (.repo_analysis_task_chunk id chunk) = st
    ∧ appReducer st (.repo_analysis_task_end id err) = st
    ∧ ∀ (st2 : AppState) (id2 chunk2 : String) (err2 : Option String),
        (appReducer st2
            (.repo_analysis_task_chunk id2 chunk2)).analysisTasks.length =
          st2.analysisTasks.length
        ∧ (appReducer st2
            (.repo_analysis_task_end id2 err2)).analysisTasks.length =
          st2.analysisTasks.length := by
  refine ⟨?_, ?_, ?_⟩
  · have h1 := map_fixes_eq_self st.analysisTasks
      (fun task =>
        if task.id = id then { task with content := task.content ++ chunk }
        else task)
      fun t ht => if_neg (hid t ht)
    simp only [appReducer]
    rw [h1]
  · have h2 := map_fixes_eq_self st.analysisTasks
      (fun task =>
        if task.id = id then
          { task with
              status := if truthy err then .error else .complete
              error := if truthy err then err else none }
        else task)
      fun t ht => if_neg (hid t ht)
    simp only [appReducer]
    rw [h2]
  · intro st2 id2 chunk2 err2
    constructor
    · simp [appReducer]
    · simp [appReducer]

/-- A concrete client state with one completed-in-progress summary task,
used by the C10 witness. -/
def sampleAppState : AppState :=
  { status := .analyzing_repo
    repoUrl := "https://github.com/x/y"
    githubToken := ""
    repoTree := []
    selectedFilePaths := []
    filesForReview := none
    analysisTasks := [⟨"summary", "1. Project Summary", .in_progress, "abc", none⟩]
    allFilesWithContent := []
    currentlyProcessingFile := none
    logs := []
    error := none }

/-- Witness for C10: a chunk and a terminal event for an unknown id
leave the sample state untouched. -/
theorem unmatched_task_events_noop_witness :
    appReducer sampleAppState (.repo_analysis_task_chunk "zzz" "more") =
      sampleAppState
    ∧ appReducer sampleAppState (.repo_analysis_task_end "zzz" (some "boom")) =
      sampleAppState :=
  ⟨(unmatched_task_events_noop sampleAppState "zzz" "more" (some "boom")
      (by decide)).1,
   (unmatched_task_events_noop sampleAppState "zzz" "more" (some "boom")
      (by decide)).2.1⟩
